import Mathlib

/-!
Verification development for the intent-extractor service (`src/main.py`).

The embedding below translates the service's own logic directly from the
source: the tweet sanitizer (the three `re.sub` passes of `preprocess_tweet`,
including a faithful backtracking model of its URL regex), the prompt builder
`create_prompt`, the postprocessing loop of `convert`, the rotating-credential
selection of the `intent` endpoint, and the endpoint's authorization checks.

External collaborators that are not part of `src/` (the completion client
`converter.query_with_retry`, the parser `converter.postprocess`, the
geocoder `converter.get_geo_result`) are modelled as function-valued
parameters (`ConverterDeps`).  The tokenizer `GPTTokenizer` lives in this
repository at `src/lm/tokenizer.py` but is not present under `src/`, so it is
modelled from the spec (see `token_count` / `truncateTokens`).

The explicit character classes of the URL regex are ASCII and translated
verbatim.  Python's `\s` is Unicode-aware and is modelled exactly (its match
set is the finite list of Unicode whitespace code points, verified against
CPython).  Python's `\w` — and the `\b` boundary built from it — is modelled
exactly for code points below 0x100 (verified against CPython); code points
of 0x100 and above are modelled uniformly as word characters, which is
faithful for the letters and digits of every script but not for symbols or
punctuation.  No statement below depends on word-ness in that range: claims
that must hold for every input use the ASCII-restricted scan
`hasAtAsciiWord`, and every concrete input evaluated lies below 0x100.
-/

/-- Python's regex `\w` class for str patterns: ASCII alphanumerics and
underscore, plus the further Latin-1 word characters (the exact set below
0x100, verified against CPython: the ordinal indicators, micro sign,
superscripts and vulgar fractions, and the accented letters without the two
multiplication/division signs).  Code points of 0x100 and above are modelled
uniformly as word characters (see the module comment). -/
def isWordChar (c : Char) : Bool :=
  c.isAlphanum || c == '_' ||
  c.toNat == 0xaa || c.toNat == 0xb2 || c.toNat == 0xb3 || c.toNat == 0xb5 ||
  c.toNat == 0xb9 || c.toNat == 0xba || c.toNat == 0xbc || c.toNat == 0xbd ||
  c.toNat == 0xbe ||
  (decide (0xc0 ≤ c.toNat) && decide (c.toNat ≤ 0xff) &&
    c.toNat != 0xd7 && c.toNat != 0xf7) ||
  decide (0x100 ≤ c.toNat)

/-- The ASCII word characters `[A-Za-z0-9_]` — the subset of `\w` used by
the scan `hasAtAsciiWord`. -/
def isAsciiWordChar (c : Char) : Bool := c.isAlphanum || c == '_'

/-- The first character class of the URL regex in `preprocess_tweet`:
`[-a-zA-Z0-9@:%._\\+~#=]` (the raw `\\` denotes a literal backslash). -/
def inC1 (c : Char) : Bool :=
  c.isAlphanum || c == '-' || c == '@' || c == ':' || c == '%' || c == '.' ||
    c == '_' || c == '\\' || c == '+' || c == '~' || c == '#' || c == '='

/-- The trailing character class of the URL regex:
`[-a-zA-Z0-9()@:%_\\+.~#?&\\/=]`. -/
def inC2 (c : Char) : Bool :=
  inC1 c || c == '(' || c == ')' || c == '?' || c == '&' || c == '/'

/-- Python's regex `\s` class for str patterns: the exact, finite set of
code points matched by `re` (verified against CPython over the whole Unicode
range). -/
def isSpaceChar (c : Char) : Bool :=
  c == ' ' || c == '\t' || c == '\n' || c == '\r' || c == '\x0b' || c == '\x0c' ||
  (decide (0x1c ≤ c.toNat) && decide (c.toNat ≤ 0x1f)) ||
  c.toNat == 0x85 || c.toNat == 0xa0 || c.toNat == 0x1680 ||
  (decide (0x2000 ≤ c.toNat) && decide (c.toNat ≤ 0x200a)) ||
  c.toNat == 0x2028 || c.toNat == 0x2029 || c.toNat == 0x202f ||
  c.toNat == 0x205f || c.toNat == 0x3000

/-- Does the list start with a word character?  (Used for the `\w+` after `@`
and for the `\b` assertion, whose preceding character is always a letter.) -/
def headIsWord (l : List Char) : Bool :=
  match l with
  | [] => false
  | c :: _ => isWordChar c

/-- True when the list is empty or starts with a non-word character: the
word-boundary test of `\b` placed after a letter. -/
def headNotWord (l : List Char) : Bool :=
  match l with
  | [] => true
  | c :: _ => !(isWordChar c)

/-- Candidate suffixes after the optional scheme group `(\w+?://)?` when the
group is present.  The lazy `\w+?` yields candidates in increasing length of
the word-character run, each immediately followed by the literal `://`. -/
def gCands : List Char → List (List Char)
  | [] => []
  | c :: rest =>
    if isWordChar c then
      (if rest.take 3 = [':', '/', '/'] then [rest.drop 3] else []) ++ gCands rest
    else []

/-- Candidate suffixes after `[-a-zA-Z0-9@:%._\\+~#=]{1,256}` followed by the
literal `\.`: each candidate starts at the dot, generated in increasing run
length (the caller reverses the list, since `{1,256}` is greedy).  The fuel
argument enforces the 256 upper bound. -/
def c1CandsAux : Nat → List Char → List (List Char)
  | 0, _ => []
  | _ + 1, [] => []
  | budget + 1, c :: rest =>
    if inC1 c then
      (if rest.head? = some '.' then [rest] else []) ++ c1CandsAux budget rest
    else []

/-- Candidate suffixes after `[a-zA-Z]{1,10}`: each candidate is the rest of
the input after consuming `n` letters, in increasing `n` (the caller reverses
the list, since `{1,10}` is greedy). -/
def tldCandsAux : Nat → List Char → List (List Char)
  | 0, _ => []
  | _ + 1, [] => []
  | budget + 1, c :: rest =>
    if c.isAlpha then [rest] ++ tldCandsAux budget rest else []

/-- Attempt to match the URL regex of `preprocess_tweet` at the start of `s`,
with Python's backtracking order (optional groups preferred present, lazy
`\w+?` shortest-first, greedy counted repetitions longest-first).  On success,
returns the remainder of the input after the match. -/
def matchURLAt (s : List Char) : Option (List Char) :=
  (gCands s ++ [s]).findSome? fun s1 =>
    ((if s1.take 4 = ['w', 'w', 'w', '.'] then [s1.drop 4] else []) ++ [s1]).findSome? fun s2 =>
      (c1CandsAux 256 s2).reverse.findSome? fun t =>
        match t with
        | '.' :: s3 =>
          (tldCandsAux 10 s3).reverse.findSome? fun s4 =>
            if headNotWord s4 then some (s4.dropWhile inC2) else none
        | _ => none

/-- Fuel-indexed model of `re.sub(r"@\w+", " ", text)`: at each position, a
`@` followed by at least one word character consumes the maximal word run and
emits a single space; otherwise the character is kept.  Any fuel of at least
`l.length` computes the substitution. -/
def removeMentionsF : Nat → List Char → List Char
  | 0, l => l
  | _ + 1, [] => []
  | fuel + 1, c :: rest =>
    if c == '@' && headIsWord rest then
      ' ' :: removeMentionsF fuel (rest.dropWhile isWordChar)
    else
      c :: removeMentionsF fuel rest

/-- Fuel-indexed model of `re.sub(url_pattern, "", mentions_removed)`:
left-to-right scan, each match replaced by the empty string, scanning
resuming at the match end. -/
def removeURLsF : Nat → List Char → List Char
  | 0, l => l
  | _ + 1, [] => []
  | fuel + 1, c :: rest =>
    match matchURLAt (c :: rest) with
    | some r => removeURLsF fuel r
    | none => c :: removeURLsF fuel rest

/-- Fuel-indexed model of `re.sub(r"\s+", " ", url_removed)`: each maximal
whitespace run is replaced by a single space. -/
def collapseWSF : Nat → List Char → List Char
  | 0, l => l
  | _ + 1, [] => []
  | fuel + 1, c :: rest =>
    if isSpaceChar c then
      ' ' :: collapseWSF fuel (rest.dropWhile isSpaceChar)
    else
      c :: collapseWSF fuel rest

/-- Mention removal pass of `preprocess_tweet`. -/
def removeMentions (l : List Char) : List Char := removeMentionsF l.length l

/-- URL removal pass of `preprocess_tweet`. -/
def removeURLs (l : List Char) : List Char := removeURLsF l.length l

/-- Whitespace collapse pass of `preprocess_tweet`. -/
def collapseWS (l : List Char) : List Char := collapseWSF l.length l

/-- The sanitizer `preprocess_tweet` of `src/main.py`: remove mentions, then
URLs, then collapse whitespace runs to single spaces. -/
def preprocess_tweet (s : String) : String :=
  String.mk (collapseWS (removeURLs (removeMentions s.data)))

/-- Scan for the mention pattern `@\w+`: true iff some `@` is immediately
followed by a word character. -/
def hasAtWord : List Char → Bool
  | [] => false
  | c :: rest => (c == '@' && headIsWord rest) || hasAtWord rest

/-- Scan for the URL pattern: true iff the URL regex matches at some
position of the list. -/
def hasURL : List Char → Bool
  | [] => false
  | c :: rest => (matchURLAt (c :: rest)).isSome || hasURL rest

/-- Does the list start with an ASCII word character? -/
def headIsAsciiWord (l : List Char) : Bool :=
  match l with
  | [] => false
  | c :: _ => isAsciiWordChar c

/-- Scan for `@` immediately followed by an ASCII word character. -/
def hasAtAsciiWord : List Char → Bool
  | [] => false
  | c :: rest => (c == '@' && headIsAsciiWord rest) || hasAtAsciiWord rest

/-- Values of the dynamically-typed payloads moved around by `convert`
(strings, lists, dicts with string keys, as produced by the JSON-ish
postprocessor). -/
inductive PyVal where
  | str (s : String)
  | list (l : List PyVal)
  | dict (d : List (String × PyVal))

/-- A Python dict with string keys, in insertion order. -/
abbrev Dict := List (String × PyVal)

/-- Key membership in a dict. -/
def dictHasKey (d : Dict) (k : String) : Bool := d.any (fun p => p.1 == k)

/-- Python dict assignment `d[k] = v`: overwrite in place when the key
exists, append otherwise. -/
def dictSet (d : Dict) (k : String) (v : PyVal) : Dict :=
  if dictHasKey d k then d.map (fun p => if p.1 == k then (k, v) else p)
  else d ++ [(k, v)]

/-- Python dict lookup `d[k]` as an `Option`. -/
def dictGet (d : Dict) (k : String) : Option PyVal :=
  (d.find? (fun p => p.1 == k)).map (fun p => p.2)

/-- A prompt template: an immutable string with a single named insertion
point `\x7bocr_input\x7d`, represented by the text before and after it. -/
structure Template where
  pre : String
  post : String

/-- The raw text of a template, as read from its file (used for token
counting in `create_prompt`). -/
def templateText (t : Template) : String := t.pre ++ "{ocr_input}" ++ t.post

/-- Python's `template.format(ocr_input=x)`. -/
def templateFormat (t : Template) (x : String) : String := t.pre ++ x ++ t.post

/-- The fields of `Settings` used by `convert` and the `intent` endpoint,
after `get_settings` has populated the templates and credential pool. -/
structure Settings where
  address_template : Template
  detailed_intent_template : Template
  address_max_tokens : Nat
  detailed_intent_max_tokens : Nat
  geo_location : Bool
  geo_key : String
  openai_keys : List String
  engine : String

/-- Modelled from the spec: `GPTTokenizer.token_count` (the tokenizer file
`src/lm/tokenizer.py` is not under `src/`).  Abstract tokenizer in which
every character is one token. -/
def token_count (s : String) : Nat := s.length

/-- Modelled from the spec: `GPTTokenizer.truncate`, keeping the earliest
tokens up to the budget; a non-positive budget yields the empty string. -/
def truncateTokens (s : String) (maxTokens : Int) : String :=
  String.mk (s.data.take maxTokens.toNat)

/-- The prompt builder `create_prompt` of `src/main.py`: count the template's
tokens, sanitize the tweet, truncate it to
`MAX_TOKENS - max_tokens - template_token_count`, substitute it into the
template.  `maxCtx` stands for the fixed `GPTTokenizer.MAX_TOKENS`. -/
def create_prompt (maxCtx : Nat) (text : String) (template : Template) (max_tokens : Nat) : String :=
  let template_token_count := token_count (templateText template)
  let preprocessed_text := preprocess_tweet text
  let truncated_text := truncateTokens preprocessed_text
    ((maxCtx : Int) - (max_tokens : Int) - (template_token_count : Int))
  templateFormat template truncated_text

/-- The external collaborators of `src/converter.py`, passed as parameters:
the completion client (prompts and api key to raw outputs; the fixed
sampling parameters are absorbed into the function), the parser
(`postprocess`, which may raise, modelled by `Except`), and the geocoder. -/
structure ConverterDeps where
  query_with_retry : List String → String → List String
  postprocess : String → String → Except String Dict
  get_geo_result : String → Dict → PyVal

/-- Message of the `IndexError` raised by `output[0]` on an empty string. -/
def indexErrorMsg : String := "string index out of range"

/-- The empty-default structured result substituted by `convert` when
postprocessing raises. -/
def fallbackProcessed : Dict :=
  [("intent", PyVal.list []), ("detailed_intent_tags", PyVal.list [])]

/-- The `try`/`except` around `converter.postprocess(info, output[0])` in
`convert`: apply the parser to the one-character string `output[0]`; on any
exception (including the `IndexError` from indexing an empty output) fall
back to `fallbackProcessed` and log a warning mentioning the raw output and
the error.  Returns the structured dict and the warnings logged. -/
def postprocessItem (deps : ConverterDeps) (info : String) (output : String) :
    Dict × List String :=
  match output.data with
  | [] => (fallbackProcessed, ["Parsing error in " ++ output ++ ",\n " ++ indexErrorMsg])
  | c :: _ =>
    match deps.postprocess info (String.mk [c]) with
    | Except.ok d => (d, [])
    | Except.error e => (fallbackProcessed, ["Parsing error in " ++ output ++ ",\n " ++ e])

/-- One iteration of the output loop of `convert`: build `returned_dict` with
the raw output under `"string"` and the (recovered) structured result under
`"processed"`, then, when the intent kind is `address`, geo-location is
enabled and the structured dict is truthy (non-empty), enrich it with a
`"geo"` entry from the geocoder. -/
def processOutput (deps : ConverterDeps) (info : String) (geo_location : Bool)
    (geo_key : String) (output : String) : Dict × List String :=
  let pr := postprocessItem deps info output
  let processed :=
    if info == "address" && geo_location && !pr.1.isEmpty then
      dictSet pr.1 "geo" (deps.get_geo_result geo_key pr.1)
    else pr.1
  ([("string", PyVal.str output), ("processed", PyVal.dict processed)], pr.2)

/-- The output loop of `convert` over a whole batch of raw outputs. -/
def processBatch (deps : ConverterDeps) (info : String) (geo_location : Bool)
    (geo_key : String) (outputs : List String) : List (Dict × List String) :=
  outputs.map (processOutput deps info geo_location geo_key)

/-- Result of a successful `convert` call: the returned items, the warnings
logged, and the completion calls made (prompt batch and api key). -/
structure ConvertResult where
  items : List Dict
  warnings : List String
  calls : List (List String × String)

/-- Body of `convert` once the per-kind template and `max_tokens` have been
selected: build one prompt per input, make a single batched completion call,
postprocess every output. -/
def convertWith (deps : ConverterDeps) (maxCtx : Nat) (template : Template)
    (max_tokens : Nat) (info : String) (inputs : List String) (settings : Settings)
    (api_key : String) : ConvertResult :=
  let text_inputs := inputs.map (fun tweet => create_prompt maxCtx tweet template max_tokens)
  let outputs := deps.query_with_retry text_inputs api_key
  let results := processBatch deps info settings.geo_location settings.geo_key outputs
  { items := results.map (fun r => r.1)
    warnings := (results.map (fun r => r.2)).flatten
    calls := [(text_inputs, api_key)] }

/-- The `convert` coroutine of `src/main.py`: dispatch on the intent kind
(an unknown kind raises `ValueError`), then run `convertWith`. -/
def convert (deps : ConverterDeps) (maxCtx : Nat) (info : String)
    (inputs : List String) (settings : Settings) (api_key : String) :
    Except String ConvertResult :=
  if info == "address" then
    Except.ok (convertWith deps maxCtx settings.address_template
      settings.address_max_tokens info inputs settings api_key)
  else if info == "detailed_intent" then
    Except.ok (convertWith deps maxCtx settings.detailed_intent_template
      settings.detailed_intent_max_tokens info inputs settings api_key)
  else Except.error "Unknown information extraction requested"

/-- One update of the module-global rotation cursor `rotator`, performed
under the lock: `rotator = (rotator + 1) % len(settings.openai_keys)`. -/
def rotStep (poolSize r : Nat) : Nat := (r + 1) % poolSize

/-- The cursor value after `n` requests, starting from the initial value 0. -/
def rotatorAfter (poolSize : Nat) : Nat → Nat
  | 0 => 0
  | n + 1 => rotStep poolSize (rotatorAfter poolSize n)

/-- The pool index used by the n-th request (1-indexed): the post-increment
cursor position. -/
def selections (poolSize n : Nat) : List Nat :=
  (List.range n).map (fun i => rotatorAfter poolSize (i + 1))

/-- Errors escaping the `intent` handler: an explicit `HTTPException`, or an
uncaught Python exception (which the framework surfaces as a 500). -/
inductive HandlerError where
  | httpException (statusCode : Nat) (detail : String)
  | uncaught (msg : String)

/-- Observable outcome of one `intent` request: the HTTP-level response (the
`response` list on success), the completion calls made, the warnings logged,
and the rotation cursor after the request. -/
structure HandlerResult where
  response : Except HandlerError (List Dict)
  completionCalls : List (List String × String)
  warnings : List String
  rotatorAfterCall : Nat

/-- ASCII lowercasing of one character (structural, unlike `String.toLower`). -/
def lowerChar (c : Char) : Char :=
  if 'A' ≤ c && c ≤ 'Z' then Char.ofNat (c.toNat + 32) else c

/-- ASCII lowercasing of a header name. -/
def lowerName (s : String) : String := String.mk (s.data.map lowerChar)

/-- Starlette's case-insensitive request-header lookup; `none` models the
`KeyError` raised by `req.headers["Authorization"]` on a missing header. -/
def headerGet (headers : List (String × String)) (name : String) : Option String :=
  (headers.find? (fun p => lowerName p.1 == lowerName name)).map (fun p => p.2)

/-- True exactly when the handler outcome is an HTTP 401 response. -/
def isHttp401 (r : Except HandlerError (List Dict)) : Bool :=
  match r with
  | Except.error (HandlerError.httpException 401 _) => true
  | _ => false

/-- The `POST /intent-extractor/` handler of `src/main.py`: check the secret
from the environment (missing secret raises), read the `Authorization`
header (missing header raises `KeyError`), compare against
`"Bearer " ++ secret` (mismatch raises `HTTPException(401)`), advance the
rotation cursor by one modulo the pool size, pick the credential at the
post-increment position, and run `convert` with kind `"detailed_intent"`. -/
def intent (deps : ConverterDeps) (maxCtx : Nat) (settings : Settings)
    (envToken : Option String) (headers : List (String × String))
    (inputs : List String) (rotator : Nat) : HandlerResult :=
  match envToken with
  | none =>
    { response := Except.error (HandlerError.uncaught "token not found in env files!")
      completionCalls := [], warnings := [], rotatorAfterCall := rotator }
  | some correct_token =>
    match headerGet headers "Authorization" with
    | none =>
      { response := Except.error (HandlerError.uncaught "KeyError: Authorization")
        completionCalls := [], warnings := [], rotatorAfterCall := rotator }
    | some coming_token =>
      if coming_token != "Bearer " ++ correct_token then
        { response := Except.error (HandlerError.httpException 401 "Unauthorized")
          completionCalls := [], warnings := [], rotatorAfterCall := rotator }
      else if settings.openai_keys.length == 0 then
        { response := Except.error (HandlerError.uncaught "integer division or modulo by zero")
          completionCalls := [], warnings := [], rotatorAfterCall := rotator }
      else
        let rotatorNew := rotStep settings.openai_keys.length rotator
        let api_key := settings.openai_keys.getD rotatorNew ""
        match convert deps maxCtx "detailed_intent" inputs settings api_key with
        | Except.ok r =>
          { response := Except.ok r.items, completionCalls := r.calls
            warnings := r.warnings, rotatorAfterCall := rotatorNew }
        | Except.error e =>
          { response := Except.error (HandlerError.uncaught e)
            completionCalls := [], warnings := [], rotatorAfterCall := rotatorNew }

/-! ### Rotation: supporting lemmas -/

theorem rotatorAfter_eq_mod (k : Nat) : ∀ n, rotatorAfter k n = n % k := by
  intro n
  induction n with
  | zero => simp [rotatorAfter]
  | succ n ih =>
    show rotStep k (rotatorAfter k n) = (n + 1) % k
    rw [ih]
    exact (Nat.mod_modEq n k).add_right 1

theorem selections_eq_map_mod (k n : Nat) :
    selections k n = (List.range n).map (fun i => (i + 1) % k) := by
  unfold selections
  apply List.map_congr_left
  intro i _
  rw [rotatorAfter_eq_mod]

theorem findSomeMem {α β : Type} {f : α → Option β} :
    ∀ {l : List α} {b : β}, l.findSome? f = some b → ∃ a, a ∈ l ∧ f a = some b := by
  intro l
  induction l with
  | nil => intro b h; simp [List.findSome?] at h
  | cons a l ih =>
    intro b h
    rw [List.findSome?_cons] at h
    cases hf : f a with
    | some v =>
      refine ⟨a, List.mem_cons_self a l, ?_⟩
      rw [hf]
      rw [hf] at h
      exact h
    | none =>
      rw [hf] at h
      obtain ⟨x, hx, hfx⟩ := ih h
      exact ⟨x, List.mem_cons_of_mem a hx, hfx⟩

theorem count_range_self (k j : Nat) (hj : j < k) : (List.range k).count j = 1 := by
  induction k with
  | zero => omega
  | succ k ih =>
    rw [List.range_succ, List.count_append, List.count_singleton]
    by_cases hc : j < k
    · rw [ih hc]
      have : (k == j) = false := by
        simp only [beq_eq_false_iff_ne]
        omega
      rw [this]
      simp
    · have hk : j = k := by omega
      have hz : (List.range k).count j = 0 := by
        rw [List.count_eq_zero]
        intro hmem
        rw [List.mem_range] at hmem
        omega
      rw [hz, hk]
      simp

/-- Each residue class below `k` appears exactly once among `k` consecutive
values of `(a + i) % k`. -/
theorem count_mod_block (k a j : Nat) (hk : 0 < k) (hj : j < k) :
    (((List.range k).map (fun i => (a + i) % k)).count j) = 1 := by
  have hnd : ((List.range k).map (fun i => (a + i) % k)).Nodup := by
    refine List.Nodup.map_on ?_ (List.nodup_range k)
    intro x hx y hy hxy
    rw [List.mem_range] at hx hy
    have hc : x ≡ y [MOD k] := Nat.ModEq.add_left_cancel' a hxy
    have hmods : x % k = y % k := hc
    rwa [Nat.mod_eq_of_lt hx, Nat.mod_eq_of_lt hy] at hmods
  have hsub : ((List.range k).map (fun i => (a + i) % k)) ⊆ List.range k := by
    intro x hx
    rw [List.mem_map] at hx
    obtain ⟨i, _, hi⟩ := hx
    rw [List.mem_range, ← hi]
    exact Nat.mod_lt _ hk
  have hperm : List.Perm ((List.range k).map (fun i => (a + i) % k)) (List.range k) := by
    refine List.Subperm.perm_of_length_le (List.subperm_of_subset hnd hsub) ?_
    simp
  rw [hperm.count_eq]
  exact count_range_self k j hj

theorem count_range_shift : ∀ r j : Nat,
    ((List.range r).map (fun i => i + 1)).count j = if 1 ≤ j ∧ j ≤ r then 1 else 0 := by
  intro r
  induction r with
  | zero =>
    intro j
    simp only [List.range_zero, List.map_nil, List.count_nil]
    have h0 : ¬(1 ≤ j ∧ j ≤ 0) := by omega
    rw [if_neg h0]
  | succ r ih =>
    intro j
    rw [List.range_succ, List.map_append, List.count_append, ih]
    simp only [List.map_cons, List.map_nil]
    rw [List.count_singleton]
    by_cases h1 : r + 1 = j
    · have hb : (r + 1 == j) = true := beq_iff_eq.mpr h1
      rw [hb, if_pos rfl, if_neg (by omega : ¬(1 ≤ j ∧ j ≤ r)), if_pos (by omega : 1 ≤ j ∧ j ≤ r + 1)]
    · have hb : (r + 1 == j) = false := by
        simp only [beq_eq_false_iff_ne, ne_eq]
        exact h1
      rw [hb, if_neg (by simp : ¬(false = true))]
      by_cases h2 : 1 ≤ j ∧ j ≤ r
      · rw [if_pos h2, if_pos (by omega : 1 ≤ j ∧ j ≤ r + 1)]
      · rw [if_neg h2, if_neg (by omega : ¬(1 ≤ j ∧ j ≤ r + 1))]

theorem count_selections_formula (k r j : Nat) (hk : 0 < k) (hj : j < k) (hr : r < k) :
    ∀ q, ((List.range (k * q + r)).map (fun i => (i + 1) % k)).count j
      = q + (if 1 ≤ j ∧ j ≤ r then 1 else 0) := by
  intro q
  induction q with
  | zero =>
    rw [Nat.mul_zero, Nat.zero_add]
    have hcongr : (List.range r).map (fun i => (i + 1) % k)
        = (List.range r).map (fun i => i + 1) := by
      apply List.map_congr_left
      intro i hi
      rw [List.mem_range] at hi
      exact Nat.mod_eq_of_lt (by omega)
    rw [hcongr, count_range_shift, Nat.zero_add]
  | succ q ih =>
    have hsplit : k * (q + 1) + r = (k * q + r) + k := by
      rw [Nat.mul_succ]
      omega
    rw [hsplit, List.range_add, List.map_append, List.count_append, ih, List.map_map]
    have hcongr2 : (List.range k).map ((fun i => (i + 1) % k) ∘ (fun i => (k * q + r) + i))
        = (List.range k).map (fun i => ((k * q + r + 1) + i) % k) := by
      apply List.map_congr_left
      intro i _
      simp only [Function.comp]
      congr 1
      omega
    rw [hcongr2, count_mod_block k (k * q + r + 1) j hk hj]
    omega

theorem selections_count (k n j : Nat) (hk : 0 < k) (hj : j < k) :
    (selections k n).count j = n / k ∨ (selections k n).count j = (n + k - 1) / k := by
  rw [selections_eq_map_mod]
  have hn : k * (n / k) + n % k = n := Nat.div_add_mod n k
  have hr : n % k < k := Nat.mod_lt _ hk
  have hcount := count_selections_formula k (n % k) j hk hj hr (n / k)
  rw [hn] at hcount
  by_cases hcase : 1 ≤ j ∧ j ≤ n % k
  · right
    rw [hcount, if_pos hcase]
    have h1 : n + k - 1 = k * (n / k + 1) + (n % k - 1) := by
      rw [Nat.mul_succ]
      omega
    rw [h1, Nat.mul_add_div hk]
    have h2 : (n % k - 1) / k = 0 := Nat.div_eq_of_lt (by omega)
    omega
  · left
    rw [hcount, if_neg hcase]
    omega

theorem selections_head (k n : Nat) (hk1 : 1 < k) (hn : 0 < n) :
    (selections k n).head? = some 1 := by
  obtain ⟨m, rfl⟩ : ∃ m, n = m + 1 := ⟨n - 1, by omega⟩
  rw [selections_eq_map_mod, List.range_succ_eq_map]
  simp only [List.map_cons, List.head?_cons]
  congr 1
  show (0 + 1) % k = 1
  rw [Nat.zero_add]
  exact Nat.mod_eq_of_lt hk1

/-- C5: starting from cursor 0, each request advances the cursor by exactly
one modulo the pool size and uses the credential at the post-increment
position; the selection sequence is the fixed round robin `(i + 1) % k`, its
first element is index 1 (for pools of at least two credentials), and after
`n` requests each index `j < k` has been selected `n / k` (floor) or
`(n + k - 1) / k` (ceiling) times. -/
theorem c5_round_robin (k n : Nat) (hk : 0 < k) :
    rotatorAfter k 0 = 0
    ∧ (∀ m, rotatorAfter k (m + 1) = (rotatorAfter k m + 1) % k)
    ∧ selections k n = (List.range n).map (fun i => (i + 1) % k)
    ∧ (∀ j, j < k → (selections k n).count j = n / k ∨ (selections k n).count j = (n + k - 1) / k)
    ∧ (1 < k → 0 < n → (selections k n).head? = some 1) :=
  ⟨rfl, fun _ => rfl, selections_eq_map_mod k n,
    fun j hj => selections_count k n j hk hj,
    fun hk1 hn => selections_head k n hk1 hn⟩

/-- Witness for C5 at the concrete pool size 3 and request count 7. -/
theorem c5_round_robin_witness :
    0 < 3 ∧
    (rotatorAfter 3 0 = 0
    ∧ (∀ m, rotatorAfter 3 (m + 1) = (rotatorAfter 3 m + 1) % 3)
    ∧ selections 3 7 = (List.range 7).map (fun i => (i + 1) % 3)
    ∧ (∀ j, j < 3 → (selections 3 7).count j = 7 / 3 ∨ (selections 3 7).count j = (7 + 3 - 1) / 3)
    ∧ (1 < 3 → 0 < 7 → (selections 3 7).head? = some 1)) :=
  ⟨by decide, c5_round_robin 3 7 (by decide)⟩

/-- C10: the rotation cursor always stays in `[0, poolSize)`: each update
maps the cursor to its successor modulo the pool size, so the value after
any number of requests is a valid pool index and every credential read
`settings.openai_keys[rotator]` is in bounds. -/
theorem c10_cursor_invariant (k : Nat) (hk : 0 < k) :
    (∀ r, rotStep k r < k)
    ∧ (∀ n, rotatorAfter k n < k)
    ∧ (∀ n, rotatorAfter k (n + 1) = (rotatorAfter k n + 1) % k) := by
  refine ⟨fun r => Nat.mod_lt _ hk, fun n => ?_, fun _ => rfl⟩
  rw [rotatorAfter_eq_mod]
  exact Nat.mod_lt _ hk

/-- Witness for C10 at the concrete pool size 2. -/
theorem c10_cursor_invariant_witness :
    0 < 2 ∧
    ((∀ r, rotStep 2 r < 2)
    ∧ (∀ n, rotatorAfter 2 n < 2)
    ∧ (∀ n, rotatorAfter 2 (n + 1) = (rotatorAfter 2 n + 1) % 2)) :=
  ⟨by decide, c10_cursor_invariant 2 (by decide)⟩

/-! ### Postprocessing loop: supporting lemmas -/

theorem dictGet_item_string (v1 v2 : PyVal) :
    dictGet [("string", v1), ("processed", v2)] "string" = some v1 := by
  simp [dictGet, List.find?]

theorem dictGet_item_processed (v1 v2 : PyVal) :
    dictGet [("string", v1), ("processed", v2)] "processed" = some v2 := by
  simp [dictGet, List.find?]

theorem dictSet_fallback_geo (v : PyVal) :
    dictSet fallbackProcessed "geo" v = fallbackProcessed ++ [("geo", v)] := by
  simp [dictSet, dictHasKey, fallbackProcessed]

theorem dictGet_fallback_geo_intent (v : PyVal) :
    dictGet (fallbackProcessed ++ [("geo", v)]) "intent" = some (PyVal.list []) := by
  simp [dictGet, fallbackProcessed, List.find?]

theorem dictGet_fallback_geo_tags (v : PyVal) :
    dictGet (fallbackProcessed ++ [("geo", v)]) "detailed_intent_tags" = some (PyVal.list []) := by
  simp [dictGet, fallbackProcessed, List.find?]

theorem dictGet_processOutput_processed (deps : ConverterDeps) (info : String) (gl : Bool)
    (gk : String) (o : String) :
    (dictGet (processOutput deps info gl gk o).1 "processed").isSome = true := by
  simp [processOutput, dictGet, List.find?]

/-- C3: for every raw completion output whose parse succeeds, the structured
payload is the postprocessor applied to the one-character string `output[0]`
(the first character of the output), while the item's `string` field carries
the whole raw output. -/
theorem c3_postprocess_first_char (deps : ConverterDeps) (info : String) (gl : Bool)
    (gk : String) (o : String) (c : Char) (rest : List Char) (d : Dict)
    (hdata : o.data = c :: rest)
    (hpost : deps.postprocess info (String.mk [c]) = Except.ok d) :
    processOutput deps info gl gk o =
      ([("string", PyVal.str o),
        ("processed", PyVal.dict (if info == "address" && gl && !d.isEmpty then
          dictSet d "geo" (deps.get_geo_result gk d) else d))], []) := by
  simp only [processOutput, postprocessItem, hdata, hpost]

/-- Witness for C3: a concrete parser applied to the first character of the
raw output "hello". -/
theorem c3_postprocess_first_char_witness :
    ("hello" : String).data = 'h' :: ['e', 'l', 'l', 'o']
    ∧ processOutput
        { query_with_retry := fun _ _ => ["RAW"]
          postprocess := fun _ s => Except.ok [("intent", PyVal.list [PyVal.str s])]
          get_geo_result := fun _ _ => PyVal.str "GEO" } "detailed_intent" false "GK" "hello" =
      ([("string", PyVal.str "hello"),
        ("processed", PyVal.dict (if ("detailed_intent" : String) == "address" && false
            && !([("intent", PyVal.list [PyVal.str (String.mk ['h'])])] : Dict).isEmpty then
          dictSet [("intent", PyVal.list [PyVal.str (String.mk ['h'])])] "geo" (PyVal.str "GEO")
          else [("intent", PyVal.list [PyVal.str (String.mk ['h'])])]))], []) :=
  ⟨rfl, c3_postprocess_first_char _ "detailed_intent" false "GK" "hello" 'h' ['e', 'l', 'l', 'o']
    [("intent", PyVal.list [PyVal.str (String.mk ['h'])])] rfl rfl⟩

/-- C4: when the postprocessor raises on a raw output, the failure is caught
inside the loop body for that item: a warning carrying the offending raw
output and the error is logged, the structured payload substituted is the
empty default (`intent` and `detailed_intent_tags` both empty; it is exactly
`fallbackProcessed` unless the address-kind geo enrichment later adds a
`geo` entry), the remaining items of the batch are still processed, and
every returned item carries a present `processed` payload. -/
theorem c4_parse_failure_recovery (deps : ConverterDeps) (info : String) (gl : Bool)
    (gk : String) (outputs : List String) (i : Nat) (o : String) (c : Char)
    (rest : List Char) (e : String)
    (hi : outputs.get? i = some o)
    (hdata : o.data = c :: rest)
    (hpost : deps.postprocess info (String.mk [c]) = Except.error e) :
    (processBatch deps info gl gk outputs).length = outputs.length
    ∧ (∃ item, (processBatch deps info gl gk outputs).get? i = some item
        ∧ dictGet item.1 "string" = some (PyVal.str o)
        ∧ (∃ p, dictGet item.1 "processed" = some (PyVal.dict p)
            ∧ dictGet p "intent" = some (PyVal.list [])
            ∧ dictGet p "detailed_intent_tags" = some (PyVal.list [])
            ∧ ((info == "address" && gl) = false → p = fallbackProcessed))
        ∧ item.2 = ["Parsing error in " ++ o ++ ",\n " ++ e])
    ∧ (∀ item ∈ processBatch deps info gl gk outputs,
        (dictGet item.1 "processed").isSome = true) := by
  refine ⟨by simp [processBatch], ?_, ?_⟩
  · refine ⟨processOutput deps info gl gk o, ?_, ?_, ?_, ?_⟩
    · rw [processBatch, List.get?_map, hi]
      rfl
    · simp only [processOutput, postprocessItem, hdata, hpost]
      exact dictGet_item_string _ _
    · by_cases hcond : (info == "address" && gl) = true
      · refine ⟨fallbackProcessed ++ [("geo", deps.get_geo_result gk fallbackProcessed)],
          ?_, dictGet_fallback_geo_intent _, dictGet_fallback_geo_tags _, ?_⟩
        · simp only [processOutput, postprocessItem, hdata, hpost, hcond]
          rw [← dictSet_fallback_geo]
          rw [if_pos (show (true && !List.isEmpty fallbackProcessed) = true by
            simp [fallbackProcessed])]
          exact dictGet_item_processed _ _
        · intro hfalse
          rw [hcond] at hfalse
          exact absurd hfalse (by simp)
      · refine ⟨fallbackProcessed, ?_, ?_, ?_, fun _ => rfl⟩
        · simp only [processOutput, postprocessItem, hdata, hpost]
          have hc2 : (info == "address" && gl && !(fallbackProcessed : Dict).isEmpty) = false := by
            simp only [fallbackProcessed, List.isEmpty_cons, Bool.not_false, Bool.and_true]
            exact Bool.eq_false_iff.mpr hcond
          rw [hc2]
          simp only [Bool.false_eq_true, if_false]
          exact dictGet_item_processed _ _
        · simp [dictGet, fallbackProcessed, List.find?]
        · simp [dictGet, fallbackProcessed, List.find?]
    · simp only [processOutput, postprocessItem, hdata, hpost]
  · intro item hmem
    rw [processBatch, List.mem_map] at hmem
    obtain ⟨o2, _, rfl⟩ := hmem
    exact dictGet_processOutput_processed deps info gl gk o2

/-- Concrete collaborator set whose parser always raises, used by witnesses. -/
def exFailDeps : ConverterDeps :=
  { query_with_retry := fun _ _ => ["BAD", "B2"]
    postprocess := fun _ _ => Except.error "boom"
    get_geo_result := fun _ _ => PyVal.str "GEO" }

/-- Witness for C4 at a concrete failing parse inside a two-item batch. -/
theorem c4_parse_failure_recovery_witness :
    (["BAD", "B2"] : List String).get? 0 = some "BAD"
    ∧ ("BAD" : String).data = 'B' :: ['A', 'D']
    ∧ exFailDeps.postprocess "detailed_intent" (String.mk ['B']) = Except.error "boom"
    ∧ ((processBatch exFailDeps "detailed_intent" false "GK" ["BAD", "B2"]).length
        = (["BAD", "B2"] : List String).length
      ∧ (∃ item, (processBatch exFailDeps "detailed_intent" false "GK" ["BAD", "B2"]).get? 0
            = some item
          ∧ dictGet item.1 "string" = some (PyVal.str "BAD")
          ∧ (∃ p, dictGet item.1 "processed" = some (PyVal.dict p)
              ∧ dictGet p "intent" = some (PyVal.list [])
              ∧ dictGet p "detailed_intent_tags" = some (PyVal.list [])
              ∧ ((("detailed_intent" : String) == "address" && false) = false →
                  p = fallbackProcessed))
          ∧ item.2 = ["Parsing error in " ++ "BAD" ++ ",\n " ++ "boom"])
      ∧ (∀ item ∈ processBatch exFailDeps "detailed_intent" false "GK" ["BAD", "B2"],
          (dictGet item.1 "processed").isSome = true)) :=
  ⟨rfl, rfl, rfl, c4_parse_failure_recovery exFailDeps "detailed_intent" false "GK"
    ["BAD", "B2"] 0 "BAD" 'B' ['A', 'D'] "boom" rfl rfl rfl⟩

/-- C9: the geo-enrichment call is made whenever the `processed` dict is
truthy.  The empty-default fallback dict is itself truthy (a two-key dict),
so with kind `address` and geo-location enabled, a per-item parse failure
still leads to a geocoding call, on the fallback dict; a successful parse
with a non-empty dict is likewise enriched. -/
theorem c9_geo_called_on_truthy (deps : ConverterDeps) (gk : String) :
    fallbackProcessed.isEmpty = false
    ∧ (∀ (o : String) (c : Char) (rest : List Char) (e : String), o.data = c :: rest →
        deps.postprocess "address" (String.mk [c]) = Except.error e →
        processOutput deps "address" true gk o =
          ([("string", PyVal.str o),
            ("processed", PyVal.dict (dictSet fallbackProcessed "geo"
              (deps.get_geo_result gk fallbackProcessed)))],
            ["Parsing error in " ++ o ++ ",\n " ++ e]))
    ∧ (∀ (o : String) (c : Char) (rest : List Char) (d : Dict), o.data = c :: rest →
        deps.postprocess "address" (String.mk [c]) = Except.ok d →
        d.isEmpty = false →
        processOutput deps "address" true gk o =
          ([("string", PyVal.str o),
            ("processed", PyVal.dict (dictSet d "geo" (deps.get_geo_result gk d)))], [])) := by
  refine ⟨rfl, ?_, ?_⟩
  · intro o c rest e hdata hpost
    simp only [processOutput, postprocessItem, hdata, hpost]
    rw [if_pos (show (("address" : String) == "address" && true
        && !List.isEmpty fallbackProcessed) = true from by decide)]
  · intro o c rest d hdata hpost hd
    simp [processOutput, postprocessItem, hdata, hpost, hd]

/-- Witness for C9: the geocoder is invoked on the fallback dict after a
concrete failing parse with kind `address` and geo-location enabled. -/
theorem c9_geo_called_on_truthy_witness :
    fallbackProcessed.isEmpty = false
    ∧ processOutput exFailDeps "address" true "GK" "BAD" =
        ([("string", PyVal.str "BAD"),
          ("processed", PyVal.dict (dictSet fallbackProcessed "geo"
            (exFailDeps.get_geo_result "GK" fallbackProcessed)))],
          ["Parsing error in " ++ "BAD" ++ ",\n " ++ "boom"]) :=
  ⟨(c9_geo_called_on_truthy exFailDeps "GK").1,
   (c9_geo_called_on_truthy exFailDeps "GK").2.1 "BAD" 'B' ['A', 'D'] "boom" rfl rfl⟩

theorem processOutput_detailed (deps : ConverterDeps) (gl : Bool) (gk o : String) :
    processOutput deps "detailed_intent" gl gk o
      = ([("string", PyVal.str o),
          ("processed", PyVal.dict (postprocessItem deps "detailed_intent" o).1)],
         (postprocessItem deps "detailed_intent" o).2) := by
  simp [processOutput]

/-- C1 (amended): a POST with a valid bearer token and a single input yields
exactly one response item; its `string` field is the raw model output and its
`processed` field is the structured result of the detailed-intent
postprocessing (with the documented fallback on parse failure).  The payload
is returned unmodified: this endpoint requests kind `detailed_intent`, whose
processing never adds a `geo` entry, so geo enrichment never happens here. -/
theorem c1_endpoint_single_input (deps : ConverterDeps) (maxCtx : Nat) (settings : Settings)
    (tok : String) (headers : List (String × String)) (t : String) (rot : Nat) (o : String)
    (hauth : headerGet headers "Authorization" = some ("Bearer " ++ tok))
    (hkeys : (settings.openai_keys.length == 0) = false)
    (hq : deps.query_with_retry
        [create_prompt maxCtx t settings.detailed_intent_template
          settings.detailed_intent_max_tokens]
        (settings.openai_keys.getD (rotStep settings.openai_keys.length rot) "") = [o]) :
    (intent deps maxCtx settings (some tok) headers [t] rot).response
      = Except.ok [[("string", PyVal.str o),
          ("processed", PyVal.dict (postprocessItem deps "detailed_intent" o).1)]] := by
  have hq2 : deps.query_with_retry
      [create_prompt maxCtx t settings.detailed_intent_template
        settings.detailed_intent_max_tokens]
      ((settings.openai_keys[rotStep settings.openai_keys.length rot]?).getD "") = [o] := by
    rw [← List.getD_eq_getElem?_getD]
    exact hq
  simp [intent, hauth, hkeys, convert, convertWith, processBatch, hq2, processOutput_detailed]

/-- A concrete non-empty structured parse result. -/
def exPost : Dict := [("intent", PyVal.list [PyVal.str "istanbul"])]

/-- Concrete collaborator set whose parser always succeeds with `exPost`. -/
def exDeps : ConverterDeps :=
  { query_with_retry := fun _ _ => ["RAW"]
    postprocess := fun _ _ => Except.ok exPost
    get_geo_result := fun _ _ => PyVal.str "GEO" }

/-- Concrete settings with geo-location enabled. -/
def exSettings : Settings :=
  { address_template := { pre := "P: ", post := " :Q" }
    detailed_intent_template := { pre := "D: ", post := " :E" }
    address_max_tokens := 5
    detailed_intent_max_tokens := 5
    geo_location := true
    geo_key := "GK"
    openai_keys := ["k0", "k1"]
    engine := "davinci" }

/-- Witness for C1 at a concrete request with a valid bearer token. -/
theorem c1_endpoint_single_input_witness :
    headerGet [("Authorization", "Bearer s")] "Authorization" = some ("Bearer " ++ "s")
    ∧ (exSettings.openai_keys.length == 0) = false
    ∧ exDeps.query_with_retry
        [create_prompt 100 "hi" exSettings.detailed_intent_template
          exSettings.detailed_intent_max_tokens]
        (exSettings.openai_keys.getD (rotStep exSettings.openai_keys.length 0) "") = ["RAW"]
    ∧ (intent exDeps 100 exSettings (some "s") [("Authorization", "Bearer s")] ["hi"] 0).response
      = Except.ok [[("string", PyVal.str "RAW"),
          ("processed", PyVal.dict (postprocessItem exDeps "detailed_intent" "RAW").1)]] :=
  ⟨by decide, rfl, rfl, c1_endpoint_single_input exDeps 100 exSettings "s"
    [("Authorization", "Bearer s")] "hi" 0 "RAW" (by decide) rfl rfl⟩

/-- Counterexample for C1 as frozen: with geo-location enabled and a
successful (truthy) parse, the endpoint's response item still carries no
`geo` entry, because the handler requests kind `detailed_intent`, never
`address`. -/
theorem c1_counterexample :
    exSettings.geo_location = true
    ∧ exDeps.postprocess "detailed_intent" (String.mk ['R']) = Except.ok exPost
    ∧ exPost.isEmpty = false
    ∧ (intent exDeps 100 exSettings (some "s") [("Authorization", "Bearer s")] ["hi"] 0).response
        = Except.ok [[("string", PyVal.str "RAW"), ("processed", PyVal.dict exPost)]]
    ∧ dictGet exPost "geo" = none := by
  refine ⟨rfl, rfl, rfl, ?_, rfl⟩
  rfl

/-- C2 (amended): a request whose `Authorization` header does not match the
configured secret is answered with HTTP 401 and the completion collaborator
is never invoked; a request with the header entirely absent also never
reaches the completion collaborator, but it dies with an uncaught `KeyError`
(surfaced as HTTP 500), not with a 401. -/
theorem c2_auth_failures (deps : ConverterDeps) (maxCtx : Nat) (settings : Settings)
    (tok : String) (headers : List (String × String)) (inputs : List String) (rot : Nat) :
    (headerGet headers "Authorization" = none →
      (intent deps maxCtx settings (some tok) headers inputs rot).response
          = Except.error (HandlerError.uncaught "KeyError: Authorization")
      ∧ (intent deps maxCtx settings (some tok) headers inputs rot).completionCalls = [])
    ∧ (∀ v, headerGet headers "Authorization" = some v → v ≠ "Bearer " ++ tok →
      (intent deps maxCtx settings (some tok) headers inputs rot).response
          = Except.error (HandlerError.httpException 401 "Unauthorized")
      ∧ (intent deps maxCtx settings (some tok) headers inputs rot).completionCalls = []) := by
  constructor
  · intro hnone
    constructor <;> simp [intent, hnone]
  · intro v hv hne
    have hbne : (v != "Bearer " ++ tok) = true := bne_iff_ne.mpr hne
    constructor <;> simp [intent, hv, hbne]

/-- Witness for C2 at a concrete absent header and a concrete mismatch. -/
theorem c2_auth_failures_witness :
    ((intent exDeps 100 exSettings (some "s") [] ["x"] 0).response
        = Except.error (HandlerError.uncaught "KeyError: Authorization")
      ∧ (intent exDeps 100 exSettings (some "s") [] ["x"] 0).completionCalls = [])
    ∧ ((intent exDeps 100 exSettings (some "s") [("Authorization", "nope")] ["x"] 0).response
        = Except.error (HandlerError.httpException 401 "Unauthorized")
      ∧ (intent exDeps 100 exSettings (some "s")
          [("Authorization", "nope")] ["x"] 0).completionCalls = []) :=
  ⟨(c2_auth_failures exDeps 100 exSettings "s" [] ["x"] 0).1 rfl,
   (c2_auth_failures exDeps 100 exSettings "s" [("Authorization", "nope")] ["x"] 0).2
      "nope" (by decide) (by decide)⟩

/-- Counterexample for C2 as frozen: a POST with the `Authorization` header
absent is not answered with HTTP 401 — the handler raises an uncaught
`KeyError` (an HTTP 500) — although the completion collaborator is indeed
never invoked. -/
theorem c2_counterexample :
    isHttp401 (intent exDeps 100 exSettings (some "s") [] ["x"] 0).response = false
    ∧ (intent exDeps 100 exSettings (some "s") [] ["x"] 0).response
        = Except.error (HandlerError.uncaught "KeyError: Authorization")
    ∧ (intent exDeps 100 exSettings (some "s") [] ["x"] 0).completionCalls = [] :=
  ⟨rfl, rfl, rfl⟩

/-- C6 (amended): whenever the reserved output tokens plus the template's
token count fit within the model maximum, the built prompt's token count is
at most the model maximum: the builder truncates the sanitized input to a
budget of `maxCtx - reserved - template_tokens` tokens before substitution.
(When the template and reservation alone exceed the maximum — the
configuration-error edge case — the bound can fail; see the
counterexample.) -/
theorem c6_prompt_within_budget (maxCtx : Nat) (text : String) (template : Template)
    (reserved : Nat)
    (h : reserved + token_count (templateText template) ≤ maxCtx) :
    token_count (create_prompt maxCtx text template reserved) ≤ maxCtx := by
  have hmid : ("{ocr_input}" : String).length = 11 := rfl
  have hh : reserved + (template.pre.length + 11 + template.post.length) ≤ maxCtx := by
    unfold token_count templateText at h
    simp only [String.length_append, hmid] at h
    omega
  unfold create_prompt templateFormat truncateTokens token_count templateText
  simp only [String.length_append, hmid]
  have key : ∀ E : Int,
      (String.mk ((preprocess_tweet text).data.take E.toNat)).length ≤ E.toNat := by
    intro E
    show ((preprocess_tweet text).data.take E.toNat).length ≤ E.toNat
    rw [List.length_take]
    exact Nat.min_le_left _ _
  refine le_trans (Nat.add_le_add_right (Nat.add_le_add_left (key _) _) _) ?_
  omega

/-- Witness for C6 at a concrete in-budget combination. -/
theorem c6_prompt_within_budget_witness :
    10 + token_count (templateText { pre := "A", post := "B" }) ≤ 100
    ∧ token_count (create_prompt 100 "hi there" { pre := "A", post := "B" } 10) ≤ 100 :=
  ⟨by decide, c6_prompt_within_budget 100 "hi there" { pre := "A", post := "B" } 10 (by decide)⟩

/-- Counterexample for C6 as frozen: when the template alone already exceeds
the model maximum, truncating the input to a (negative) budget cannot save
the bound — the built prompt still exceeds the maximum. -/
theorem c6_counterexample :
    ¬ token_count (create_prompt 4 "" { pre := "abcde", post := "" } 0) ≤ 4 := by
  decide

/-! ### Sanitizer: character-class and candidate-structure lemmas -/

theorem asciiWordChar_inC1 (c : Char) (h : isAsciiWordChar c = true) : inC1 c = true := by
  unfold isAsciiWordChar at h
  rw [Bool.or_eq_true] at h
  cases h with
  | inl h => simp [inC1, h]
  | inr h => simp [inC1, h]

theorem inC1_inC2 (c : Char) (h : inC1 c = true) : inC2 c = true := by
  simp [inC2, h]

theorem asciiWordChar_inC2 (c : Char) (h : isAsciiWordChar c = true) : inC2 c = true :=
  inC1_inC2 c (asciiWordChar_inC1 c h)

theorem asciiWordChar_isWordChar (c : Char) (h : isAsciiWordChar c = true) :
    isWordChar c = true := by
  unfold isAsciiWordChar at h
  unfold isWordChar
  rw [Bool.or_eq_true] at h
  cases h with
  | inl h => simp [h]
  | inr h => simp [h]

theorem gCands_spec : ∀ s t : List Char, t ∈ gCands s → t <:+ s ∧ t.length + 4 ≤ s.length := by
  intro s
  induction s with
  | nil => intro t ht; simp [gCands] at ht
  | cons c rest ih =>
    intro t ht
    simp only [gCands] at ht
    by_cases hw : isWordChar c = true
    · rw [if_pos hw, List.mem_append] at ht
      cases ht with
      | inl h1 =>
        by_cases h3 : rest.take 3 = [':', '/', '/']
        · rw [if_pos h3, List.mem_singleton] at h1
          subst h1
          have hlen3 : 3 ≤ rest.length := by
            have hc3 := congrArg List.length h3
            rw [List.length_take] at hc3
            simp only [List.length_cons, List.length_nil] at hc3
            omega
          refine ⟨(List.drop_suffix 3 rest).trans (List.suffix_cons c rest), ?_⟩
          rw [List.length_drop]
          simp only [List.length_cons]
          omega
        · rw [if_neg h3] at h1
          simp at h1
      | inr h2 =>
        obtain ⟨hsuf, hlen⟩ := ih t h2
        refine ⟨hsuf.trans (List.suffix_cons c rest), ?_⟩
        simp only [List.length_cons]
        omega
    · rw [if_neg hw] at ht
      simp at ht

theorem c1CandsAux_spec : ∀ (b : Nat) (s t : List Char), t ∈ c1CandsAux b s →
    (t <:+ s ∧ t.length + 1 ≤ s.length) ∧ t.head? = some '.' := by
  intro b
  induction b with
  | zero => intro s t ht; simp [c1CandsAux] at ht
  | succ b ih =>
    intro s t ht
    cases s with
    | nil => simp [c1CandsAux] at ht
    | cons c rest =>
      simp only [c1CandsAux] at ht
      by_cases hc : inC1 c = true
      · rw [if_pos hc, List.mem_append] at ht
        cases ht with
        | inl h1 =>
          by_cases hd : rest.head? = some '.'
          · rw [if_pos hd, List.mem_singleton] at h1
            rw [h1]
            exact ⟨⟨List.suffix_cons c rest, by simp⟩, hd⟩
          · rw [if_neg hd] at h1
            simp at h1
        | inr h2 =>
          obtain ⟨⟨hsuf, hlen⟩, hhd⟩ := ih rest t h2
          refine ⟨⟨hsuf.trans (List.suffix_cons c rest), ?_⟩, hhd⟩
          simp only [List.length_cons]
          omega
      · rw [if_neg hc] at ht
        simp at ht

theorem tldCandsAux_spec : ∀ (b : Nat) (s t : List Char), t ∈ tldCandsAux b s →
    t <:+ s ∧ t.length + 1 ≤ s.length := by
  intro b
  induction b with
  | zero => intro s t ht; simp [tldCandsAux] at ht
  | succ b ih =>
    intro s t ht
    cases s with
    | nil => simp [tldCandsAux] at ht
    | cons c rest =>
      simp only [tldCandsAux] at ht
      by_cases hc : c.isAlpha = true
      · rw [if_pos hc, List.singleton_append, List.mem_cons] at ht
        cases ht with
        | inl h1 =>
          rw [h1]
          exact ⟨List.suffix_cons c rest, by simp⟩
        | inr h2 =>
          obtain ⟨hsuf, hlen⟩ := ih rest t h2
          refine ⟨hsuf.trans (List.suffix_cons c rest), ?_⟩
          simp only [List.length_cons]
          omega
      · rw [if_neg hc] at ht
        simp at ht

theorem wStage_spec (s1 s2 : List Char)
    (h : s2 ∈ (if s1.take 4 = ['w', 'w', 'w', '.'] then [s1.drop 4] else []) ++ [s1]) :
    s2 <:+ s1 ∧ s2.length ≤ s1.length := by
  rw [List.mem_append] at h
  cases h with
  | inl h1 =>
    by_cases h4 : s1.take 4 = ['w', 'w', 'w', '.']
    · rw [if_pos h4, List.mem_singleton] at h1
      rw [h1]
      exact ⟨List.drop_suffix 4 s1, (List.drop_suffix 4 s1).length_le⟩
    · rw [if_neg h4] at h1
      simp at h1
  | inr h2 =>
    rw [List.mem_singleton] at h2
    rw [h2]
    exact ⟨List.suffix_rfl, le_refl _⟩

theorem matchURLAt_spec : ∀ {s r : List Char}, matchURLAt s = some r →
    (r <:+ s ∧ r.length + 3 ≤ s.length)
    ∧ (∀ x, r.head? = some x → inC2 x = false) := by
  intro s r h
  unfold matchURLAt at h
  obtain ⟨s1, hs1mem, hs1⟩ := findSomeMem h
  obtain ⟨s2, hs2mem, hs2⟩ := findSomeMem hs1
  obtain ⟨t, htmem, ht⟩ := findSomeMem hs2
  rw [List.mem_reverse] at htmem
  obtain ⟨⟨htsuf, htlen⟩, hthd⟩ := c1CandsAux_spec 256 s2 t htmem
  cases t with
  | nil => simp at hthd
  | cons tc s3 =>
    simp only [List.head?_cons, Option.some.injEq] at hthd
    subst hthd
    change ((tldCandsAux 10 s3).reverse.findSome? fun s4 =>
        if headNotWord s4 then some (s4.dropWhile inC2) else none) = some r at ht
    obtain ⟨s4, hs4mem, hs4⟩ := findSomeMem ht
    rw [List.mem_reverse] at hs4mem
    obtain ⟨hs4suf, hs4len⟩ := tldCandsAux_spec 10 s3 s4 hs4mem
    by_cases hnw : headNotWord s4 = true
    · rw [if_pos hnw, Option.some.injEq] at hs4
      subst hs4
      have hw12 := wStage_spec s1 s2 hs2mem
      have hsuf2 : s2 <:+ s1 := hw12.1
      have hlen2 : s2.length ≤ s1.length := hw12.2
      have hdropsuf : s4.dropWhile inC2 <:+ s4 := List.dropWhile_suffix inC2
      have hdroplen : (s4.dropWhile inC2).length ≤ s4.length := hdropsuf.length_le
      have hsuf_to_s2 : s4.dropWhile inC2 <:+ s2 :=
        (hdropsuf.trans (hs4suf.trans ((List.suffix_cons '.' s3).trans htsuf)))
      have hheadnot : ∀ x, (s4.dropWhile inC2).head? = some x → inC2 x = false := by
        intro x hx
        have hh := List.head?_dropWhile_not inC2 s4
        rw [hx] at hh
        exact hh
      rw [List.mem_append] at hs1mem
      cases hs1mem with
      | inl hg =>
        obtain ⟨hgsuf, hglen⟩ := gCands_spec s s1 hg
        refine ⟨⟨hsuf_to_s2.trans (hsuf2.trans hgsuf), ?_⟩, hheadnot⟩
        simp only [List.length_cons] at htlen
        omega
      | inr hone =>
        rw [List.mem_singleton] at hone
        subst hone
        refine ⟨⟨hsuf_to_s2.trans hsuf2, ?_⟩, hheadnot⟩
        simp only [List.length_cons] at htlen
        omega
    · rw [if_neg hnw] at hs4
      exact absurd hs4 (by simp)

/-! ### Sanitizer: mention-freedom and pass idempotence -/

theorem hasAtWord_cons (c : Char) (l : List Char) :
    hasAtWord (c :: l) = ((c == '@' && headIsWord l) || hasAtWord l) := rfl

theorem hasAtAsciiWord_cons (c : Char) (l : List Char) :
    hasAtAsciiWord (c :: l) = ((c == '@' && headIsAsciiWord l) || hasAtAsciiWord l) := rfl

theorem hasAtAsciiWord_append_right (u t : List Char)
    (h : hasAtAsciiWord (u ++ t) = false) : hasAtAsciiWord t = false := by
  induction u with
  | nil => exact h
  | cons a u ih =>
    rw [List.cons_append, hasAtAsciiWord_cons, Bool.or_eq_false_iff] at h
    exact ih h.2

theorem hasAtAsciiWord_suffix {t l : List Char} (hsuf : t <:+ l)
    (h : hasAtAsciiWord l = false) : hasAtAsciiWord t = false := by
  obtain ⟨u, rfl⟩ := hsuf
  exact hasAtAsciiWord_append_right u t h

theorem headIsAsciiWord_headIsWord (l : List Char) (h : headIsAsciiWord l = true) :
    headIsWord l = true := by
  cases l with
  | nil => exact absurd h (by simp [headIsAsciiWord])
  | cons c rest => exact asciiWordChar_isWordChar c h

theorem headIsWord_removeMentionsF : ∀ (fuel : Nat) (l : List Char),
    headIsWord (removeMentionsF fuel l) = true → headIsWord l = true := by
  intro fuel l h
  cases fuel with
  | zero => exact h
  | succ f =>
    cases l with
    | nil => exact h
    | cons c rest =>
      simp only [removeMentionsF] at h
      by_cases hb : (c == '@' && headIsWord rest) = true
      · rw [if_pos hb] at h
        have h0 : headIsWord (' ' :: removeMentionsF f (rest.dropWhile isWordChar)) = false := rfl
        rw [h0] at h
        exact absurd h (by simp)
      · rw [if_neg hb] at h
        exact h

theorem hasAtWord_removeMentionsF : ∀ (fuel : Nat) (l : List Char), l.length ≤ fuel →
    hasAtWord (removeMentionsF fuel l) = false := by
  intro fuel
  induction fuel with
  | zero =>
    intro l hl
    rw [List.length_eq_zero.mp (Nat.le_zero.mp hl)]
    rfl
  | succ f ih =>
    intro l hl
    cases l with
    | nil => rfl
    | cons c rest =>
      simp only [removeMentionsF]
      by_cases hb : (c == '@' && headIsWord rest) = true
      · rw [if_pos hb, hasAtWord_cons, Bool.or_eq_false_iff]
        constructor
        · rfl
        · apply ih
          have := (List.dropWhile_suffix isWordChar (l := rest)).length_le
          simp only [List.length_cons] at hl
          omega
      · rw [if_neg hb, hasAtWord_cons, Bool.or_eq_false_iff]
        have hrest : hasAtWord (removeMentionsF f rest) = false := by
          apply ih
          simp only [List.length_cons] at hl
          omega
        refine ⟨?_, hrest⟩
        by_cases hc : (c == '@') = true
        · have hw : headIsWord rest = false := by
            rw [hc] at hb
            revert hb
            cases headIsWord rest <;> simp
          have hw2 : headIsWord (removeMentionsF f rest) = false := by
            cases hx : headIsWord (removeMentionsF f rest)
            · rfl
            · have := headIsWord_removeMentionsF f rest hx
              rw [hw] at this
              exact absurd this (by simp)
          rw [hw2]
          simp
        · have hc2 : (c == '@') = false := by
            revert hc
            cases (c == '@') <;> simp
          rw [hc2]
          simp

theorem headIsAsciiWord_removeMentionsF : ∀ (fuel : Nat) (l : List Char),
    headIsAsciiWord (removeMentionsF fuel l) = true → headIsAsciiWord l = true := by
  intro fuel l h
  cases fuel with
  | zero => exact h
  | succ f =>
    cases l with
    | nil => exact h
    | cons c rest =>
      simp only [removeMentionsF] at h
      by_cases hb : (c == '@' && headIsWord rest) = true
      · rw [if_pos hb] at h
        have h0 : headIsAsciiWord
            (' ' :: removeMentionsF f (rest.dropWhile isWordChar)) = false := rfl
        rw [h0] at h
        exact absurd h (by simp)
      · rw [if_neg hb] at h
        exact h

theorem hasAtAsciiWord_removeMentionsF : ∀ (fuel : Nat) (l : List Char), l.length ≤ fuel →
    hasAtAsciiWord (removeMentionsF fuel l) = false := by
  intro fuel
  induction fuel with
  | zero =>
    intro l hl
    rw [List.length_eq_zero.mp (Nat.le_zero.mp hl)]
    rfl
  | succ f ih =>
    intro l hl
    cases l with
    | nil => rfl
    | cons c rest =>
      simp only [removeMentionsF]
      by_cases hb : (c == '@' && headIsWord rest) = true
      · rw [if_pos hb, hasAtAsciiWord_cons, Bool.or_eq_false_iff]
        constructor
        · rfl
        · apply ih
          have := (List.dropWhile_suffix isWordChar (l := rest)).length_le
          simp only [List.length_cons] at hl
          omega
      · rw [if_neg hb, hasAtAsciiWord_cons, Bool.or_eq_false_iff]
        have hrest : hasAtAsciiWord (removeMentionsF f rest) = false := by
          apply ih
          simp only [List.length_cons] at hl
          omega
        refine ⟨?_, hrest⟩
        by_cases hc : (c == '@') = true
        · have hw : headIsWord rest = false := by
            rw [hc] at hb
            revert hb
            cases headIsWord rest <;> simp
          have hw2 : headIsAsciiWord (removeMentionsF f rest) = false := by
            cases hx : headIsAsciiWord (removeMentionsF f rest)
            · rfl
            · have ha := headIsAsciiWord_removeMentionsF f rest hx
              have hm := headIsAsciiWord_headIsWord rest ha
              rw [hw] at hm
              exact absurd hm (by simp)
          rw [hw2]
          simp
        · have hc2 : (c == '@') = false := by
            revert hc
            cases (c == '@') <;> simp
          rw [hc2]
          simp

theorem removeURLsF_succ_cons (f : Nat) (c : Char) (rest : List Char) :
    removeURLsF (f + 1) (c :: rest)
      = match matchURLAt (c :: rest) with
        | some r => removeURLsF f r
        | none => c :: removeURLsF f rest := rfl

theorem headIsAsciiWord_removeURLsF : ∀ (fuel : Nat) (l : List Char),
    headIsAsciiWord (removeURLsF fuel l) = true → headIsAsciiWord l = true := by
  intro fuel
  induction fuel with
  | zero => intro l h; exact h
  | succ f ih =>
    intro l h
    cases l with
    | nil => exact h
    | cons c rest =>
      rw [removeURLsF_succ_cons] at h
      cases hm : matchURLAt (c :: rest) with
      | some r =>
        rw [hm] at h
        have hr := ih r h
        obtain ⟨_, hhead⟩ := matchURLAt_spec hm
        cases hre : r with
        | nil =>
          rw [hre] at hr
          exact absurd hr (by simp [headIsAsciiWord])
        | cons x xs =>
          rw [hre] at hr
          have hx : inC2 x = false := hhead x (by rw [hre]; rfl)
          have hx2 : inC2 x = true := asciiWordChar_inC2 x hr
          rw [hx] at hx2
          exact absurd hx2 (by simp)
      | none =>
        rw [hm] at h
        exact h

theorem hasAtAsciiWord_removeURLsF : ∀ (fuel : Nat) (l : List Char),
    hasAtAsciiWord l = false → hasAtAsciiWord (removeURLsF fuel l) = false := by
  intro fuel
  induction fuel with
  | zero => intro l h; exact h
  | succ f ih =>
    intro l h
    cases l with
    | nil => rfl
    | cons c rest =>
      rw [removeURLsF_succ_cons]
      cases hm : matchURLAt (c :: rest) with
      | some r =>
        show hasAtAsciiWord (removeURLsF f r) = false
        apply ih
        exact hasAtAsciiWord_suffix (matchURLAt_spec hm).1.1 h
      | none =>
        show hasAtAsciiWord (c :: removeURLsF f rest) = false
        rw [hasAtAsciiWord_cons, Bool.or_eq_false_iff]
        rw [hasAtAsciiWord_cons, Bool.or_eq_false_iff] at h
        refine ⟨?_, ih rest h.2⟩
        by_cases hc : (c == '@') = true
        · have hw : headIsAsciiWord rest = false := by
            have hb := h.1
            rw [hc] at hb
            revert hb
            cases headIsAsciiWord rest <;> simp
          have hw2 : headIsAsciiWord (removeURLsF f rest) = false := by
            cases hx : headIsAsciiWord (removeURLsF f rest)
            · rfl
            · have := headIsAsciiWord_removeURLsF f rest hx
              rw [hw] at this
              exact absurd this (by simp)
          rw [hw2]
          simp
        · have hc2 : (c == '@') = false := by
            revert hc
            cases (c == '@') <;> simp
          rw [hc2]
          simp

theorem headIsAsciiWord_collapseWSF : ∀ (fuel : Nat) (l : List Char),
    headIsAsciiWord (collapseWSF fuel l) = true → headIsAsciiWord l = true := by
  intro fuel l h
  cases fuel with
  | zero => exact h
  | succ f =>
    cases l with
    | nil => exact h
    | cons c rest =>
      simp only [collapseWSF] at h
      by_cases hs : isSpaceChar c = true
      · rw [if_pos hs] at h
        have h0 : headIsAsciiWord (' ' :: collapseWSF f (rest.dropWhile isSpaceChar)) = false := rfl
        rw [h0] at h
        exact absurd h (by simp)
      · rw [if_neg hs] at h
        exact h

theorem hasAtAsciiWord_collapseWSF : ∀ (fuel : Nat) (l : List Char),
    hasAtAsciiWord l = false → hasAtAsciiWord (collapseWSF fuel l) = false := by
  intro fuel
  induction fuel with
  | zero => intro l h; exact h
  | succ f ih =>
    intro l h
    cases l with
    | nil => rfl
    | cons c rest =>
      simp only [collapseWSF]
      rw [hasAtAsciiWord_cons, Bool.or_eq_false_iff] at h
      by_cases hs : isSpaceChar c = true
      · rw [if_pos hs, hasAtAsciiWord_cons, Bool.or_eq_false_iff]
        refine ⟨rfl, ?_⟩
        apply ih
        exact hasAtAsciiWord_suffix (List.dropWhile_suffix isSpaceChar) h.2
      · rw [if_neg hs, hasAtAsciiWord_cons, Bool.or_eq_false_iff]
        refine ⟨?_, ih rest h.2⟩
        by_cases hc : (c == '@') = true
        · have hw : headIsAsciiWord rest = false := by
            have hb := h.1
            rw [hc] at hb
            revert hb
            cases headIsAsciiWord rest <;> simp
          have hw2 : headIsAsciiWord (collapseWSF f rest) = false := by
            cases hx : headIsAsciiWord (collapseWSF f rest)
            · rfl
            · have := headIsAsciiWord_collapseWSF f rest hx
              rw [hw] at this
              exact absurd this (by simp)
          rw [hw2]
          simp
        · have hc2 : (c == '@') = false := by
            revert hc
            cases (c == '@') <;> simp
          rw [hc2]
          simp

theorem noAtAsciiWord_preprocess (s : String) :
    hasAtAsciiWord (preprocess_tweet s).data = false := by
  show hasAtAsciiWord (collapseWS (removeURLs (removeMentions s.data))) = false
  unfold collapseWS removeURLs removeMentions
  exact hasAtAsciiWord_collapseWSF _ _
    (hasAtAsciiWord_removeURLsF _ _ (hasAtAsciiWord_removeMentionsF _ _ (le_refl _)))

/-- C8 (amended): for every input string, the sanitizer's output contains no
`@` immediately followed by an ASCII word character (`[A-Za-z0-9_]`).  With
the full Unicode `\w` the property fails: URL deletion can splice a
surviving `@` together with a following non-ASCII word character (see the
counterexample), because such characters lie outside the trailing class of
the URL regex while still being word characters. -/
theorem c8_no_ascii_mentions (s : String) :
    hasAtAsciiWord (preprocess_tweet s).data = false :=
  noAtAsciiWord_preprocess s

theorem removeMentionsF_eq_self : ∀ (fuel : Nat) (l : List Char), hasAtWord l = false →
    removeMentionsF fuel l = l := by
  intro fuel
  induction fuel with
  | zero => intro l _; rfl
  | succ f ih =>
    intro l h
    cases l with
    | nil => rfl
    | cons c rest =>
      rw [hasAtWord_cons, Bool.or_eq_false_iff] at h
      simp only [removeMentionsF]
      rw [if_neg (by rw [h.1]; simp)]
      rw [ih rest h.2]

/-! ### Whitespace collapse is a projection -/

theorem headIsSpace_collapseWSF : ∀ (fuel : Nat) (m : List Char) (x : Char) (xs : List Char),
    collapseWSF fuel m = x :: xs → isSpaceChar x = true →
    ∃ d ds, m = d :: ds ∧ isSpaceChar d = true := by
  intro fuel m x xs heq hx
  cases fuel with
  | zero => exact ⟨x, xs, heq, hx⟩
  | succ f =>
    cases m with
    | nil => exact List.noConfusion heq
    | cons d ds =>
      by_cases hs : isSpaceChar d = true
      · exact ⟨d, ds, rfl, hs⟩
      · simp only [collapseWSF, if_neg hs] at heq
        injection heq with h1 h2
        rw [h1] at hs
        exact absurd hx hs

theorem collapseWSF_fixpoint : ∀ (f1 : Nat) (l : List Char), l.length ≤ f1 →
    ∀ f2, collapseWSF f2 (collapseWSF f1 l) = collapseWSF f1 l := by
  intro f1
  induction f1 with
  | zero =>
    intro l hl f2
    rw [List.length_eq_zero.mp (Nat.le_zero.mp hl)]
    cases f2 <;> rfl
  | succ f ih =>
    intro l hl f2
    cases l with
    | nil =>
      cases f2 <;> rfl
    | cons c rest =>
      simp only [collapseWSF]
      by_cases hs : isSpaceChar c = true
      · rw [if_pos hs]
        cases f2 with
        | zero => rfl
        | succ g =>
          simp only [collapseWSF]
          rw [if_pos (show isSpaceChar ' ' = true from rfl)]
          congr 1
          have hdropX : (collapseWSF f (rest.dropWhile isSpaceChar)).dropWhile isSpaceChar
              = collapseWSF f (rest.dropWhile isSpaceChar) := by
            cases hX : collapseWSF f (rest.dropWhile isSpaceChar) with
            | nil => rfl
            | cons x xs =>
              rw [List.dropWhile_cons]
              rw [if_neg ?_]
              intro hxs
              obtain ⟨d, ds, hdw, hd⟩ := headIsSpace_collapseWSF f _ x xs hX hxs
              have h3 := List.head?_dropWhile_not isSpaceChar rest
              rw [hdw] at h3
              rw [h3] at hd
              exact absurd hd (by simp)
          rw [hdropX]
          apply ih
          have := (List.dropWhile_suffix isSpaceChar (l := rest)).length_le
          simp only [List.length_cons] at hl
          omega
      · rw [if_neg hs]
        cases f2 with
        | zero => rfl
        | succ g =>
          simp only [collapseWSF]
          rw [if_neg hs]
          congr 1
          apply ih
          simp only [List.length_cons] at hl
          omega

/-- C7 (amended): the sanitizer as a whole is not idempotent (see the
counterexample: the URL pass can match again on the pipeline's own output),
but its mention-removal and whitespace-collapse passes are each idempotent
as standalone passes: mention removal leaves no `@` followed by a word
character and so acts as the identity on its own output, and whitespace
collapse leaves no collapsible run. -/
theorem c7_passes_idempotent (l : List Char) :
    removeMentions (removeMentions l) = removeMentions l
    ∧ collapseWS (collapseWS l) = collapseWS l := by
  constructor
  · exact removeMentionsF_eq_self _ _ (hasAtWord_removeMentionsF l.length l (le_refl _))
  · exact collapseWSF_fixpoint l.length l (le_refl _) _

def c7x : String := "z.bbbbbbbbbb" ++ String.mk (List.replicate 256 '1') ++ ".com"

set_option maxRecDepth 8000 in
/-- Counterexample for C7 as frozen: the sanitizer is not idempotent —
`preprocess_tweet (preprocess_tweet c7x)` is the empty string while
`preprocess_tweet c7x` is `"z.bbbbbbbbbb"`. -/
theorem c7_counterexample : preprocess_tweet (preprocess_tweet c7x) ≠ preprocess_tweet c7x := by
  decide

/-- The 264-character input on which a Unicode mention survives sanitizing:
URL removal deletes `'-'*256 ++ ".com-"` (the `@` stays outside that match
because of the 256-bound of the first character class, and the trailing
class stops before the accented letter), splicing the surviving `@`
together with `é` — a word character under Python's Unicode `\w`. -/
def c8x : String := "@" ++ String.mk (List.replicate 256 '-') ++ ".com-é"

set_option maxRecDepth 8000 in
/-- Counterexample for C8 as frozen: the sanitized output `"@é"` does
contain `@` immediately followed by a word character. -/
theorem c8_counterexample :
    preprocess_tweet c8x = "@é" ∧ hasAtWord (preprocess_tweet c8x).data = true := by
  constructor
  · decide
  · decide
